import Mathlib

/-!
Verification of the NoSyncFrameWrite frame-buffer core
(`src/NoSyncFrameWrite/main.cpp`).

The embedding models the byte buffer of a `Frame` as a partial map
`Nat → Option Nat` from byte offsets to byte values; `none` marks offsets
outside the allocated region.  `size_t` arithmetic is modelled on `Nat`
with explicit reduction modulo `2 ^ 64` (`addW`, `subW`, `mulW`).  The
host integer encoding used by `std::memcpy` of a `size_t` is concretised
as the 8-byte little-endian encoding (`encodeWord` / `decodeWord`); the
only property the program relies on is that decoding inverts encoding,
which is independent of that choice.

Threaded execution of `Frame::Draw` is modelled by running the per-segment
fill `DrawThread` sequentially over the list of segments; the disjointness
of the segments' write sets (proved below) is what justifies collapsing
the concurrent execution to any sequential order.
-/

namespace NoSyncFrameWrite

/-- Number of values of the 64-bit `size_t` used by the program. -/
def W64 : Nat := 2 ^ 64

/-- Wrapping `size_t` addition (modulo modulo `2 ^ 64`). -/
def addW (a b : Nat) : Nat := (a + b) % W64

/-- Wrapping `size_t` subtraction (modulo `2 ^ 64`), for `a b < W64`. -/
def subW (a b : Nat) : Nat := (a + (W64 - b % W64)) % W64

/-- Wrapping `size_t` multiplication (modulo modulo `2 ^ 64`). -/
def mulW (a b : Nat) : Nat := a * b % W64

/-- Constant `kColorBlack = 0xFF`, the initial fill byte. -/
def kColorBlack : Nat := 0xFF

/-- Constant `kColorWhite = 0x00`, the painted fill byte. -/
def kColorWhite : Nat := 0x00

/-- Value of `sizeof(size_t)` on the modelled host (8 bytes). -/
def sizeofSizeT : Nat := 8

/-- Source `Frame::GetDataIndex()`: the buffer offset where frame data begins,
`sizeof(size_t) * 2`. -/
def GetDataIndex : Nat := sizeofSizeT * 2

/-- Byte `i` of the 8-byte little-endian encoding of the `size_t` value
`v`, as laid down by `std::memcpy(buffer, &v, sizeof(size_t))`. -/
def encodeWord (v i : Nat) : Nat := v / 256 ^ i % 256

/-- Read one byte of a buffer, defaulting absent offsets to `0`. -/
def byteAt (g : Nat → Option Nat) (off : Nat) : Nat := (g off).getD 0

/-- The `size_t` value read back by
`std::memcpy(&v, buffer + base, sizeof(size_t))`. -/
def decodeWord (g : Nat → Option Nat) (base : Nat) : Nat :=
  byteAt g base +
    256 * (byteAt g (base + 1) +
      256 * (byteAt g (base + 2) +
        256 * (byteAt g (base + 3) +
          256 * (byteAt g (base + 4) +
            256 * (byteAt g (base + 5) +
              256 * (byteAt g (base + 6) +
                256 * byteAt g (base + 7)))))))

/-- The number of data bytes `Frame::Create` initialises:
`cols * rows` in wrapping `size_t` arithmetic. -/
def dataBytes (rows cols : Nat) : Nat := mulW cols rows

/-- The allocation size of `Frame::Create`:
`GetDataIndex() + (cols * rows)` in wrapping `size_t` arithmetic. -/
def bufferSize (rows cols : Nat) : Nat := addW GetDataIndex (dataBytes rows cols)

/-- The buffer produced by a successful `Frame::Create(rows, cols)`:
the first `sizeof(size_t)` bytes hold `rows`, the next `sizeof(size_t)`
bytes hold `cols`, and the data region is `memset` to `kColorBlack`.
Offsets at or past the allocation size are absent. -/
def CreateBuf (rows cols : Nat) : Nat → Option Nat := fun off =>
  if off < bufferSize rows cols then
    if off < sizeofSizeT then some (encodeWord rows off)
    else if off < GetDataIndex then some (encodeWord cols (off - sizeofSizeT))
    else some kColorBlack
  else none

/-- The `Frame` object: its only state is the owned buffer
(`std::unique_ptr<char[]> buffer_`), `none` when null. -/
structure Frame where
  buffer : Option (Nat → Option Nat)

/-- Source `Frame::Create(rows, cols)`: the returned success flag together with
the resulting object state.  `rows <= 0 || cols <= 0` (on unsigned
values: `rows = 0 ∨ cols = 0`) leaves the buffer null and returns
`false`; otherwise the buffer is allocated and initialised.  Allocation
itself is modelled as succeeding (`std::bad_alloc` is the environment
refusing memory, not program logic). -/
def Frame.CreateResult (rows cols : Nat) : Bool × Frame :=
  if rows = 0 ∨ cols = 0 then (false, ⟨none⟩) else (true, ⟨some (CreateBuf rows cols)⟩)

/-- The `Frame(rows, cols)` constructor: calls `Create` and keeps the
object, discarding the flag. -/
def Frame.Create (rows cols : Nat) : Frame := (Frame.CreateResult rows cols).2

/-- Source `Frame::GetRows()`: `0` on a null buffer, otherwise the first header
word. -/
def Frame.GetRows (f : Frame) : Nat :=
  match f.buffer with
  | none => 0
  | some g => decodeWord g 0

/-- Source `Frame::GetCols()`: `0` on a null buffer, otherwise the second header
word. -/
def Frame.GetCols (f : Frame) : Nat :=
  match f.buffer with
  | none => 0
  | some g => decodeWord g sizeofSizeT

/-- Source `Frame::PrintFrame()`: fails (returns `false`) exactly on a null
buffer; the textual output is outside the model. -/
def Frame.PrintFrame (f : Frame) : Bool := f.buffer.isSome

/-- Source `Frame::Rect`: four `size_t` indices, all defaulting to `0`. -/
structure Rect where
  x1 : Nat := 0
  y1 : Nat := 0
  x2 : Nat := 0
  y2 : Nat := 0

/-- Source `Frame::DrawSanityChecks(rect)`: the function checks
`x1 >= 0 && y1 >= 0 && x2 >= x1 && y2 >= y1 && x2 <= GetRows() - 1 &&
y2 <= GetCols() - 1 && buffer_ != nullptr`, where `GetRows() - 1` is
wrapping `size_t` subtraction. -/
def Frame.DrawSanityChecks (f : Frame) (r : Rect) : Bool :=
  decide (0 ≤ r.x1) && decide (0 ≤ r.y1) &&
    decide (r.x1 ≤ r.x2) && decide (r.y1 ≤ r.y2) &&
    decide (r.x2 ≤ subW f.GetRows 1) && decide (r.y2 ≤ subW f.GetCols 1) &&
    f.buffer.isSome

/-- Function `std::clamp(v, lo, hi)` as implemented for `size_t`
(cppreference reference implementation:
`v < lo ? lo : hi < v ? hi : v`).  Its precondition `lo ≤ hi` is not
checked, matching the source. -/
def clampN (v lo hi : Nat) : Nat := if v < lo then lo else if hi < v then hi else v

/-- The first loop of `Frame::PrepareSegments`: the size assigned to each
of the `n` segments, `cols_to_draw / n` plus one extra for the first
`cols_to_draw % n` indices. -/
def prepareSizes (colsToDraw n : Nat) : List Nat :=
  (List.range n).map fun i => colsToDraw / n + if i < colsToDraw % n then 1 else 0

/-- The second loop of `Frame::PrepareSegments`: turn the list of sizes
into `(from, to)` pairs via the running offset `temp`
(`second = (first - 1) + temp; first = temp; temp = second + 1`, all in
`size_t` arithmetic). -/
def assignBounds : Nat → List Nat → List (Nat × Nat)
  | _, [] => []
  | temp, sz :: rest =>
    (temp, addW (subW sz 1) temp) :: assignBounds (addW (addW (subW sz 1) temp) 1) rest

/-- Source `Frame::PrepareSegments(cols_to_draw, segments)` with
`segments.size() = n`: the list of column segments, each a
`(first, last)` pair of offsets relative to `rect.y1`. -/
def PrepareSegments (colsToDraw n : Nat) : List (Nat × Nat) :=
  assignBounds 0 (prepareSizes colsToDraw n)

/-- One `std::ranges::fill` over the byte run
`[start, start + len)`, writing `val` into every offset of the run. -/
def memsetRange (g : Nat → Option Nat) (start len val : Nat) : Nat → Option Nat :=
  fun off => if start ≤ off ∧ off < start + len then some val else g off

/-- One iteration of the loop in `Frame::DrawThread`: for column offset
`index` (relative to `rect.y1`), fill the run starting at
`rect.x1 + (index + rect.y1) * GetRows() + GetDataIndex()` of length
`rect.x2 - rect.x1 + 1` with `kColorWhite`.  All address arithmetic is
wrapping `size_t` arithmetic, and `GetRows()` is re-read from the current
buffer exactly as the source does. -/
def fillCol (r : Rect) (g : Nat → Option Nat) (index : Nat) : Nat → Option Nat :=
  memsetRange g
    (addW (addW r.x1 (mulW (addW index r.y1) (decodeWord g 0))) GetDataIndex)
    (addW (subW r.x2 r.x1) 1) kColorWhite

/-- Source `Frame::DrawThread(rect, segment)`: fill every column offset `index`
with `segment.first <= index <= segment.second`. -/
def DrawThread (r : Rect) (seg : Nat × Nat) (g : Nat → Option Nat) : Nat → Option Nat :=
  (List.range' seg.1 (seg.2 + 1 - seg.1)).foldl (fillCol r) g

/-- Quantity `cols_to_draw = (rect.y2 - rect.y1) + 1` in `size_t` arithmetic. -/
def colsToDrawOf (r : Rect) : Nat := addW (subW r.y2 r.y1) 1

/-- The `optimized_thread_count` of `Frame::Draw`:
`std::clamp(thread_count, 1, std::min(cols_to_draw, hardware_concurrency))`.
The hardware concurrency is an environment input `hw`. -/
def effectiveCount (r : Rect) (threadCount hw : Nat) : Nat :=
  clampN threadCount 1 (min (colsToDrawOf r) hw)

/-- The list of segments `Frame::Draw` hands to `DrawThread`: with more
than one effective worker, the planned segments (worker threads get
segments `0 .. M-2`, the calling thread segment `M-1`); otherwise the
single whole-span segment `{0, rect.y2 - rect.y1}` run on the calling
thread. -/
def drawTasks (r : Rect) (threadCount hw : Nat) : List (Nat × Nat) :=
  if 1 < effectiveCount r threadCount hw then
    PrepareSegments (colsToDrawOf r) (effectiveCount r threadCount hw)
  else [(0, subW r.y2 r.y1)]

/-- The total effect of the fill phase of `Frame::Draw` on the buffer:
every dispatched segment is drawn.  The segments' byte ranges are
pairwise disjoint (proved below), so running them in any sequential
order computes the unique common result of the concurrent execution. -/
def drawFun (r : Rect) (threadCount hw : Nat) (g : Nat → Option Nat) : Nat → Option Nat :=
  (drawTasks r threadCount hw).foldl (fun g seg => DrawThread r seg g) g

/-- Source `Frame::Draw(rect, thread_count)`: validate, then fill; returns the
success flag and the resulting object state.  `hw` is the value of
`std::thread::hardware_concurrency()`. -/
def Frame.Draw (f : Frame) (r : Rect) (threadCount hw : Nat) : Bool × Frame :=
  if f.DrawSanityChecks r then (true, ⟨f.buffer.map (drawFun r threadCount hw)⟩)
  else (false, f)

/-- The buffer offset of data cell `(x, y)`:
`GetDataIndex() + x + y * rows` (column-major layout). -/
def cellOff (rows x y : Nat) : Nat := GetDataIndex + x + y * rows

/-- Read data cell `(x, y)` from a buffer. -/
def readCell (g : Nat → Option Nat) (rows x y : Nat) : Option Nat := g (cellOff rows x y)

/-- The byte interval written by one `fillCol` iteration for column
offset `j` (relative to `rect.y1`), in unwrapped arithmetic:
offsets of the run `rect.x1 .. rect.x2` inside absolute column
`j + rect.y1`. -/
abbrev colSpan (rows : Nat) (r : Rect) (j off : Nat) : Prop :=
  GetDataIndex + r.x1 + (j + r.y1) * rows ≤ off ∧
    off ≤ GetDataIndex + r.x2 + (j + r.y1) * rows

/-- A probe buffer for observing writes: a well-formed header for
`(rows, cols)` and every data byte `1` (which differs from
`kColorWhite`), so that every byte a fill writes changes the buffer. -/
def sentinelBuf (rows cols : Nat) : Nat → Option Nat := fun off =>
  if off < sizeofSizeT then some (encodeWord rows off)
  else if off < GetDataIndex then some (encodeWord cols (off - sizeofSizeT))
  else some 1

/-- The set of byte offsets `DrawThread` writes for a segment: those
whose contents differ from the probe buffer after running it. -/
def writtenSet (rows cols : Nat) (r : Rect) (seg : Nat × Nat) : Set Nat :=
  { off | DrawThread r seg (sentinelBuf rows cols) off ≠ sentinelBuf rows cols off }

/-- Start column (relative offset) of segment `i` in the plan for `W`
columns and `N` segments: `i` full quotas plus the remainder spread over
the lowest indices. -/
def segStart (W N i : Nat) : Nat := i * (W / N) + min i (W % N)

/-! ### Arithmetic helpers -/

lemma W64_eq : W64 = 18446744073709551616 := by norm_num [W64]

lemma addW_eq {a b : Nat} (h : a + b < W64) : addW a b = a + b := Nat.mod_eq_of_lt h

lemma mulW_eq {a b : Nat} (h : a * b < W64) : mulW a b = a * b := Nat.mod_eq_of_lt h

lemma subW_eq {a b : Nat} (hba : b ≤ a) (ha : a < W64) : subW a b = a - b := by
  have hb : b < W64 := lt_of_le_of_lt hba ha
  unfold subW
  rw [Nat.mod_eq_of_lt hb]
  have h1 : a + (W64 - b) = W64 + (a - b) := by omega
  rw [h1, Nat.add_mod_left, Nat.mod_eq_of_lt (by omega)]

lemma clampN_eq_of_le {v lo hi : Nat} (h : lo ≤ hi) : clampN v lo hi = min (max v lo) hi := by
  unfold clampN
  split_ifs <;> omega

/-! ### Header encoding -/

lemma decode_of_encode (g : Nat → Option Nat) (base v : Nat) (hv : v < W64)
    (h : ∀ i, i < sizeofSizeT → g (base + i) = some (encodeWord v i)) :
    decodeWord g base = v := by
  have hz : sizeofSizeT = 8 := rfl
  have h0 : g base = some (encodeWord v 0) := by simpa using h 0 (by omega)
  unfold decodeWord byteAt
  rw [h0, h 1 (by omega), h 2 (by omega), h 3 (by omega), h 4 (by omega),
    h 5 (by omega), h 6 (by omega), h 7 (by omega)]
  simp only [Option.getD_some]
  rw [W64_eq] at hv
  norm_num [encodeWord]
  omega

lemma decodeWord_congr (g1 g2 : Nat → Option Nat) (base : Nat)
    (h : ∀ i, i < sizeofSizeT → g2 (base + i) = g1 (base + i)) :
    decodeWord g2 base = decodeWord g1 base := by
  have hz : sizeofSizeT = 8 := rfl
  have h0 : g2 base = g1 base := by simpa using h 0 (by omega)
  unfold decodeWord byteAt
  rw [h0, h 1 (by omega), h 2 (by omega), h 3 (by omega), h 4 (by omega),
    h 5 (by omega), h 6 (by omega), h 7 (by omega)]

/-! ### Facts about `Frame::Create` -/

lemma Create_eq_some {rows cols : Nat} (h1 : rows ≠ 0) (h2 : cols ≠ 0) :
    Frame.Create rows cols = ⟨some (CreateBuf rows cols)⟩ := by
  unfold Frame.Create Frame.CreateResult
  rw [if_neg (by tauto)]

lemma Create_eq_none {rows cols : Nat} (h : rows = 0 ∨ cols = 0) :
    Frame.Create rows cols = ⟨none⟩ := by
  unfold Frame.Create Frame.CreateResult
  rw [if_pos h]

lemma GetRows_mk_some (g : Nat → Option Nat) :
    (Frame.mk (some g)).GetRows = decodeWord g 0 := rfl

lemma GetCols_mk_some (g : Nat → Option Nat) :
    (Frame.mk (some g)).GetCols = decodeWord g sizeofSizeT := rfl

lemma bufferSize_eq {rows cols : Nat} (hs : GetDataIndex + rows * cols < W64) :
    bufferSize rows cols = GetDataIndex + rows * cols := by
  have hm : cols * rows < W64 := by rw [Nat.mul_comm]; omega
  unfold bufferSize dataBytes
  rw [mulW_eq hm, Nat.mul_comm, addW_eq (by omega)]

lemma CreateBuf_header_rows {rows cols : Nat} (hsize : GetDataIndex ≤ bufferSize rows cols)
    (i : Nat) (hi : i < sizeofSizeT) : CreateBuf rows cols (0 + i) = some (encodeWord rows i) := by
  have hz : sizeofSizeT = 8 := rfl
  have hd : GetDataIndex = 16 := rfl
  unfold CreateBuf
  rw [if_pos (by omega), if_pos (by omega)]
  simp

lemma CreateBuf_header_cols {rows cols : Nat} (hsize : GetDataIndex ≤ bufferSize rows cols)
    (i : Nat) (hi : i < sizeofSizeT) :
    CreateBuf rows cols (sizeofSizeT + i) = some (encodeWord cols i) := by
  have hz : sizeofSizeT = 8 := rfl
  have hd : GetDataIndex = 16 := rfl
  unfold CreateBuf
  rw [if_pos (by omega), if_neg (by omega), if_pos (by omega)]
  have : sizeofSizeT + i - sizeofSizeT = i := by omega
  rw [this]

lemma GetRows_Create {rows cols : Nat} (h1 : rows ≠ 0) (h2 : cols ≠ 0) (hr : rows < W64)
    (hsize : GetDataIndex ≤ bufferSize rows cols) :
    (Frame.Create rows cols).GetRows = rows := by
  rw [Create_eq_some h1 h2, GetRows_mk_some]
  exact decode_of_encode _ 0 rows hr (fun i hi => CreateBuf_header_rows hsize i hi)

lemma GetCols_Create {rows cols : Nat} (h1 : rows ≠ 0) (h2 : cols ≠ 0) (hc : cols < W64)
    (hsize : GetDataIndex ≤ bufferSize rows cols) :
    (Frame.Create rows cols).GetCols = cols := by
  rw [Create_eq_some h1 h2, GetCols_mk_some]
  exact decode_of_encode _ sizeofSizeT cols hc (fun i hi => CreateBuf_header_cols hsize i hi)

lemma CreateBuf_cell {rows cols x y : Nat} (hx : x < rows) (hy : y < cols)
    (hs : GetDataIndex + rows * cols < W64) :
    CreateBuf rows cols (cellOff rows x y) = some kColorBlack := by
  have hd : GetDataIndex = 16 := rfl
  have hz : sizeofSizeT = 8 := rfl
  have hcell : x + y * rows < rows * cols := by
    have h1 : x + y * rows < (y + 1) * rows := by rw [Nat.succ_mul]; omega
    have h2 : (y + 1) * rows ≤ cols * rows := Nat.mul_le_mul_right _ (by omega)
    rw [Nat.mul_comm cols rows] at h2
    omega
  unfold CreateBuf cellOff
  rw [bufferSize_eq hs, if_pos (by omega), if_neg (by omega), if_neg (by omega)]

/-! ### Characterising one fill iteration -/

lemma fillCol_apply {rows cols : Nat} {g : Nat → Option Nat} {r : Rect} {index : Nat}
    (hg : decodeWord g 0 = rows)
    (hx12 : r.x1 ≤ r.x2) (hx2 : r.x2 < rows)
    (hy : index + r.y1 ≤ r.y2) (hy2 : r.y2 < cols)
    (hs : GetDataIndex + rows * cols < W64) (off : Nat) :
    fillCol r g index off =
      if colSpan rows r index off then some kColorWhite else g off := by
  have hd : GetDataIndex = 16 := rfl
  have hrows1 : 1 ≤ rows := by omega
  have hcols1 : 1 ≤ cols := by omega
  have hclt : cols ≤ rows * cols := Nat.le_mul_of_pos_left cols (by omega)
  have hyc : index + r.y1 < cols := by omega
  have hmul1 : (index + r.y1) * rows ≤ (cols - 1) * rows :=
    Nat.mul_le_mul_right _ (by omega)
  have hmul2 : (cols - 1) * rows + rows = cols * rows := by
    obtain ⟨c, rfl⟩ : ∃ c, cols = c + 1 := ⟨cols - 1, by omega⟩
    simp [Nat.add_sub_cancel]
    ring
  have hcr : cols * rows = rows * cols := Nat.mul_comm cols rows
  have hrlt : rows ≤ rows * cols := Nat.le_mul_of_pos_right rows (by omega)
  have hiy : index + r.y1 < W64 := by omega
  have hmulv : (index + r.y1) * rows < W64 := by omega
  have hx1m : r.x1 + (index + r.y1) * rows < W64 := by omega
  have hx1md : r.x1 + (index + r.y1) * rows + GetDataIndex < W64 := by omega
  have hx2W : r.x2 < W64 := by omega
  have hsub1 : r.x2 - r.x1 + 1 < W64 := by omega
  unfold fillCol memsetRange
  rw [hg, addW_eq hiy, mulW_eq hmulv, addW_eq hx1m, addW_eq hx1md,
    subW_eq hx12 hx2W, addW_eq hsub1]
  split_ifs with h1 h2 <;> first | rfl | omega

lemma fillCol_low {rows cols : Nat} {g : Nat → Option Nat} {r : Rect} {index : Nat}
    (hg : decodeWord g 0 = rows)
    (hx12 : r.x1 ≤ r.x2) (hx2 : r.x2 < rows)
    (hy : index + r.y1 ≤ r.y2) (hy2 : r.y2 < cols)
    (hs : GetDataIndex + rows * cols < W64) (off : Nat) (hoff : off < GetDataIndex) :
    fillCol r g index off = g off := by
  rw [fillCol_apply hg hx12 hx2 hy hy2 hs off, if_neg ?_]
  rintro ⟨hlo, hhi⟩
  have hd : GetDataIndex = 16 := rfl
  omega

/-! ### Characterising `DrawThread` -/

open Classical in
lemma foldl_fillCol_apply {rows cols : Nat} {r : Rect}
    (hx12 : r.x1 ≤ r.x2) (hx2 : r.x2 < rows) (hy2 : r.y2 < cols)
    (hs : GetDataIndex + rows * cols < W64) :
    ∀ (n a : Nat) (g : Nat → Option Nat), decodeWord g 0 = rows →
      (∀ j, a ≤ j → j < a + n → j + r.y1 ≤ r.y2) →
      ∀ off, (List.range' a n).foldl (fillCol r) g off =
        if ∃ j ∈ List.range' a n, colSpan rows r j off then some kColorWhite else g off := by
  intro n
  induction n with
  | zero =>
    intro a g hg hrange off
    simp [List.range']
  | succ n ih =>
    intro a g hg hrange off
    have hya : a + r.y1 ≤ r.y2 := hrange a (Nat.le_refl a) (by omega)
    have hlow : ∀ i, i < sizeofSizeT → fillCol r g a (0 + i) = g (0 + i) := by
      intro i hi
      have h8 : sizeofSizeT = 8 := rfl
      exact fillCol_low hg hx12 hx2 hya hy2 hs (0 + i) (by unfold GetDataIndex sizeofSizeT; omega)
    have hg2 : decodeWord (fillCol r g a) 0 = rows := by
      rw [decodeWord_congr g (fillCol r g a) 0 hlow, hg]
    rw [List.range'_succ]
    simp only [List.foldl_cons]
    rw [ih (a + 1) (fillCol r g a) hg2 (fun j hj1 hj2 => hrange j (by omega) (by omega)) off]
    by_cases hA : ∃ j ∈ List.range' (a + 1) n, colSpan rows r j off
    · rw [if_pos hA]
      obtain ⟨j, hjmem, hjspan⟩ := hA
      exact (if_pos ⟨j, List.mem_cons_of_mem a hjmem, hjspan⟩).symm
    · rw [if_neg hA, fillCol_apply hg hx12 hx2 hya hy2 hs off]
      by_cases hB : colSpan rows r a off
      · rw [if_pos hB, if_pos ⟨a, List.mem_cons_self a _, hB⟩]
      · rw [if_neg hB, if_neg ?_]
        rintro ⟨j, hjmem, hjspan⟩
        rcases List.mem_cons.mp hjmem with rfl | hmem
        · exact hB hjspan
        · exact hA ⟨j, hmem, hjspan⟩

open Classical in
lemma DrawThread_apply {rows cols : Nat} {r : Rect} {seg : Nat × Nat} {g : Nat → Option Nat}
    (hg : decodeWord g 0 = rows) (hfl : seg.1 ≤ seg.2) (hsy : seg.2 + r.y1 ≤ r.y2)
    (hx12 : r.x1 ≤ r.x2) (hx2 : r.x2 < rows) (hy2 : r.y2 < cols)
    (hs : GetDataIndex + rows * cols < W64) (off : Nat) :
    DrawThread r seg g off =
      if ∃ j, seg.1 ≤ j ∧ j ≤ seg.2 ∧ colSpan rows r j off then some kColorWhite
      else g off := by
  unfold DrawThread
  rw [foldl_fillCol_apply hx12 hx2 hy2 hs (seg.2 + 1 - seg.1) seg.1 g hg
    (fun j hj1 hj2 => by omega) off]
  have hcond : (∃ j ∈ List.range' seg.1 (seg.2 + 1 - seg.1), colSpan rows r j off) ↔
      (∃ j, seg.1 ≤ j ∧ j ≤ seg.2 ∧ colSpan rows r j off) := by
    constructor
    · rintro ⟨j, hjmem, hjspan⟩
      rw [List.mem_range'_1] at hjmem
      exact ⟨j, by omega, by omega, hjspan⟩
    · rintro ⟨j, hj1, hj2, hjspan⟩
      exact ⟨j, by rw [List.mem_range'_1]; omega, hjspan⟩
  rw [if_congr hcond rfl rfl]

open Classical in
lemma foldl_DrawThread_apply {rows cols : Nat} {r : Rect}
    (hx12 : r.x1 ≤ r.x2) (hx2 : r.x2 < rows) (hy2 : r.y2 < cols)
    (hs : GetDataIndex + rows * cols < W64) :
    ∀ (tasks : List (Nat × Nat)) (g : Nat → Option Nat), decodeWord g 0 = rows →
      (∀ seg ∈ tasks, seg.1 ≤ seg.2 ∧ seg.2 + r.y1 ≤ r.y2) →
      ∀ off, (tasks.foldl (fun h seg => DrawThread r seg h) g) off =
        if ∃ seg ∈ tasks, ∃ j, seg.1 ≤ j ∧ j ≤ seg.2 ∧ colSpan rows r j off
        then some kColorWhite else g off := by
  intro tasks
  induction tasks with
  | nil =>
    intro g hg htasks off
    simp
  | cons seg rest ih =>
    intro g hg htasks off
    have hseg := htasks seg (List.mem_cons_self seg rest)
    have hlow : ∀ i, i < sizeofSizeT → DrawThread r seg g (0 + i) = g (0 + i) := by
      intro i hi
      rw [DrawThread_apply hg hseg.1 hseg.2 hx12 hx2 hy2 hs (0 + i), if_neg ?_]
      rintro ⟨j, hj1, hj2, hjspan⟩
      have hd : GetDataIndex = 16 := rfl
      have h8 : sizeofSizeT = 8 := rfl
      have := hjspan.1
      omega
    have hg2 : decodeWord (DrawThread r seg g) 0 = rows := by
      rw [decodeWord_congr g (DrawThread r seg g) 0 hlow, hg]
    simp only [List.foldl_cons]
    rw [ih (DrawThread r seg g) hg2 (fun s hsmem => htasks s (List.mem_cons_of_mem seg hsmem)) off]
    by_cases hA : ∃ s ∈ rest, ∃ j, s.1 ≤ j ∧ j ≤ s.2 ∧ colSpan rows r j off
    · rw [if_pos hA]
      obtain ⟨s, hsmem, hj⟩ := hA
      rw [if_pos ⟨s, List.mem_cons_of_mem seg hsmem, hj⟩]
    · rw [if_neg hA, DrawThread_apply hg hseg.1 hseg.2 hx12 hx2 hy2 hs off]
      by_cases hB : ∃ j, seg.1 ≤ j ∧ j ≤ seg.2 ∧ colSpan rows r j off
      · rw [if_pos hB, if_pos ⟨seg, List.mem_cons_self seg rest, hB⟩]
      · rw [if_neg hB, if_neg ?_]
        rintro ⟨s, hsmem, hj⟩
        rcases List.mem_cons.mp hsmem with heq | hmem
        · exact hB (heq ▸ hj)
        · exact hA ⟨s, hmem, hj⟩

/-! ### The segment planner -/

lemma assignBounds_length (szs : List Nat) : ∀ t, (assignBounds t szs).length = szs.length := by
  induction szs with
  | nil => intro t; rfl
  | cons sz rest ih => intro t; simp [assignBounds, ih]

lemma PrepareSegments_length (W N : Nat) : (PrepareSegments W N).length = N := by
  unfold PrepareSegments prepareSizes
  rw [assignBounds_length]
  simp

lemma assignBounds_eq (szs : List Nat) :
    ∀ t, (∀ s ∈ szs, 1 ≤ s) → t + szs.sum < W64 →
      assignBounds t szs =
        (List.range szs.length).map
          (fun i => (t + (szs.take i).sum, t + (szs.take (i + 1)).sum - 1)) := by
  induction szs with
  | nil => intro t hpos hsum; rfl
  | cons sz rest ih =>
    intro t hpos hsum
    rw [List.sum_cons] at hsum
    have hsz : 1 ≤ sz := hpos sz (List.mem_cons_self sz rest)
    unfold assignBounds
    have hsub : subW sz 1 = sz - 1 := subW_eq hsz (by omega)
    have hone : sz - 1 + t + 1 = sz + t := by omega
    rw [hsub, addW_eq (by omega), addW_eq (by omega), hone]
    rw [ih (sz + t) (fun s hs => hpos s (List.mem_cons_of_mem sz hs)) (by omega)]
    rw [List.length_cons, List.range_succ_eq_map, List.map_cons, List.map_map]
    rw [List.cons_eq_cons]
    refine ⟨?_, ?_⟩
    · simp only [List.take_succ_cons, List.take_zero, List.sum_cons, List.sum_nil,
        Prod.mk.injEq]
      omega
    · apply List.map_congr_left
      intro i hi
      simp only [Function.comp_apply, Nat.succ_eq_add_one, List.take_succ_cons,
        List.sum_cons, Prod.mk.injEq]
      omega

lemma sizes_take_sum (W N : Nat) :
    ∀ n, ((List.range n).map (fun i => W / N + if i < W % N then 1 else 0)).sum
      = n * (W / N) + min n (W % N) := by
  intro n
  induction n with
  | zero => simp
  | succ n ih =>
    rw [List.range_succ, List.map_append, List.sum_append, ih]
    simp only [List.map_cons, List.map_nil, List.sum_cons, List.sum_nil]
    have hmul : (n + 1) * (W / N) = n * (W / N) + W / N := by ring
    by_cases h : n < W % N
    · rw [if_pos h]; omega
    · rw [if_neg h]; omega

lemma prepareSizes_sum (W N : Nat) (hN : 1 ≤ N) : (prepareSizes W N).sum = W := by
  unfold prepareSizes
  rw [sizes_take_sum W N N]
  have hr : W % N < N := Nat.mod_lt W (by omega)
  have hmin : min N (W % N) = W % N := by omega
  have hdm := Nat.div_add_mod W N
  omega

lemma prepareSegments_eq (W N : Nat) (hN : 1 ≤ N) (hNW : N ≤ W) (hW : W < W64) :
    PrepareSegments W N =
      (List.range N).map (fun i => (segStart W N i, segStart W N (i + 1) - 1)) := by
  unfold PrepareSegments
  have hq : 1 ≤ W / N := (Nat.one_le_div_iff (by omega)).mpr hNW
  have hpos : ∀ s ∈ prepareSizes W N, 1 ≤ s := by
    intro s hs
    unfold prepareSizes at hs
    obtain ⟨i, hi, rfl⟩ := List.mem_map.mp hs
    split_ifs <;> omega
  have hsum : (prepareSizes W N).sum = W := prepareSizes_sum W N hN
  rw [assignBounds_eq (prepareSizes W N) 0 hpos (by omega)]
  have hlen : (prepareSizes W N).length = N := by unfold prepareSizes; simp
  rw [hlen]
  apply List.map_congr_left
  intro i hi
  rw [List.mem_range] at hi
  have htake : ∀ m, m ≤ N → ((prepareSizes W N).take m).sum = segStart W N m := by
    intro m hm
    unfold prepareSizes
    rw [← List.map_take, List.take_range]
    have hminm : min m N = m := by omega
    rw [hminm, sizes_take_sum W N m]
    rfl
  rw [htake i (by omega), htake (i + 1) (by omega)]
  simp

lemma segStart_zero (W N : Nat) : segStart W N 0 = 0 := by simp [segStart]

lemma segStart_succ (W N i : Nat) :
    segStart W N (i + 1) = segStart W N i + (W / N + if i < W % N then 1 else 0) := by
  unfold segStart
  have hmul : (i + 1) * (W / N) = i * (W / N) + W / N := by ring
  by_cases h : i < W % N
  · rw [if_pos h]; omega
  · rw [if_neg h]; omega

lemma segStart_mono (W N : Nat) {i j : Nat} (h : i ≤ j) :
    segStart W N i ≤ segStart W N j := by
  unfold segStart
  have hmul : i * (W / N) ≤ j * (W / N) := Nat.mul_le_mul_right _ h
  omega

lemma segStart_lt_succ (W N i : Nat) (hq : 1 ≤ W / N) :
    segStart W N i < segStart W N (i + 1) := by
  rw [segStart_succ]
  split_ifs <;> omega

lemma segStart_last (W N : Nat) (hN : 1 ≤ N) : segStart W N N = W := by
  unfold segStart
  have hr : W % N < N := Nat.mod_lt W (by omega)
  have hmin : min N (W % N) = W % N := by omega
  have hdm := Nat.div_add_mod W N
  omega

lemma segStart_cover (W N : Nat) (hN : 1 ≤ N) :
    ∀ j, j < W → ∃ i, i < N ∧ segStart W N i ≤ j ∧ j < segStart W N (i + 1) := by
  have key : ∀ n j, j < segStart W N n →
      ∃ i, i < n ∧ segStart W N i ≤ j ∧ j < segStart W N (i + 1) := by
    intro n
    induction n with
    | zero =>
      intro j h
      rw [segStart_zero] at h
      omega
    | succ n ih =>
      intro j h
      by_cases hj : j < segStart W N n
      · obtain ⟨i, hi, hle, hlt⟩ := ih j hj
        exact ⟨i, by omega, hle, hlt⟩
      · exact ⟨n, by omega, by omega, h⟩
  intro j hj
  exact key N j (by rw [segStart_last W N hN]; omega)

lemma prepareSegments_getD (W N : Nat) (hN : 1 ≤ N) (hNW : N ≤ W) (hW : W < W64)
    {i : Nat} (hi : i < N) :
    (PrepareSegments W N).getD i (0, 0) = (segStart W N i, segStart W N (i + 1) - 1) := by
  rw [prepareSegments_eq W N hN hNW hW]
  rw [List.getD_eq_getElem?_getD, List.getElem?_map, List.getElem?_range hi]
  rfl

lemma prepareSegments_mem (W N : Nat) (hN : 1 ≤ N) (hNW : N ≤ W) (hW : W < W64)
    {seg : Nat × Nat} (hmem : seg ∈ PrepareSegments W N) :
    ∃ i, i < N ∧ seg = (segStart W N i, segStart W N (i + 1) - 1) := by
  rw [prepareSegments_eq W N hN hNW hW] at hmem
  obtain ⟨i, hi, rfl⟩ := List.mem_map.mp hmem
  exact ⟨i, List.mem_range.mp hi, rfl⟩

/-! ### Cell addressing -/

lemma cell_addr_inj {rows x y xp yp : Nat} (hx : x < rows) (hxp : xp < rows)
    (h : x + y * rows = xp + yp * rows) : x = xp ∧ y = yp := by
  have hpos : 0 < rows := by omega
  have h1 : (x + y * rows) % rows = x := by
    rw [Nat.add_mul_mod_self_right, Nat.mod_eq_of_lt hx]
  have h2 : (xp + yp * rows) % rows = xp := by
    rw [Nat.add_mul_mod_self_right, Nat.mod_eq_of_lt hxp]
  have h3 : (x + y * rows) / rows = y := by
    rw [Nat.add_mul_div_right _ _ hpos, Nat.div_eq_of_lt hx, Nat.zero_add]
  have h4 : (xp + yp * rows) / rows = yp := by
    rw [Nat.add_mul_div_right _ _ hpos, Nat.div_eq_of_lt hxp, Nat.zero_add]
  rw [h] at h1 h3
  exact ⟨by omega, by omega⟩

lemma colSpan_iff {rows : Nat} {r : Rect} {j off : Nat} (hx12 : r.x1 ≤ r.x2) :
    colSpan rows r j off ↔
      ∃ x, r.x1 ≤ x ∧ x ≤ r.x2 ∧ off = GetDataIndex + x + (j + r.y1) * rows := by
  constructor
  · rintro ⟨h1, h2⟩
    exact ⟨off - GetDataIndex - (j + r.y1) * rows, by omega, by omega, by omega⟩
  · rintro ⟨x, hx1, hx2, rfl⟩
    exact ⟨by omega, by omega⟩

lemma colSpan_cell {rows : Nat} {r : Rect} {j x y : Nat} (hx12 : r.x1 ≤ r.x2)
    (hx2 : r.x2 < rows) (hx : x < rows)
    (h : colSpan rows r j (cellOff rows x y)) :
    r.x1 ≤ x ∧ x ≤ r.x2 ∧ y = j + r.y1 := by
  obtain ⟨xp, hxp1, hxp2, heq⟩ := (colSpan_iff hx12).mp h
  unfold cellOff at heq
  have hinj := cell_addr_inj hx (show xp < rows by omega)
    (show x + y * rows = xp + (j + r.y1) * rows by omega)
  exact ⟨by omega, by omega, hinj.2⟩

/-! ### The dispatched tasks of `Frame::Draw` -/

lemma colsToDrawOf_eq {r : Rect} (hy12 : r.y1 ≤ r.y2) (hy2W : r.y2 + 1 < W64) :
    colsToDrawOf r = r.y2 - r.y1 + 1 := by
  unfold colsToDrawOf
  rw [subW_eq hy12 (by omega), addW_eq (by omega)]

lemma effectiveCount_le {r : Rect} {k hw : Nat} (h : 1 < effectiveCount r k hw) :
    effectiveCount r k hw ≤ min (colsToDrawOf r) hw := by
  unfold effectiveCount clampN at h ⊢
  split_ifs at h ⊢ <;> omega

lemma drawTasks_wf {r : Rect} (hy12 : r.y1 ≤ r.y2) (hy2W : r.y2 + 1 < W64) (k hw : Nat) :
    ∀ seg ∈ drawTasks r k hw, seg.1 ≤ seg.2 ∧ seg.2 + r.y1 ≤ r.y2 := by
  intro seg hmem
  have hWeq : colsToDrawOf r = r.y2 - r.y1 + 1 := colsToDrawOf_eq hy12 hy2W
  unfold drawTasks at hmem
  split_ifs at hmem with hM
  · have hle := effectiveCount_le hM
    set M := effectiveCount r k hw with hMdef
    have hN : 1 ≤ M := by omega
    have hNW : M ≤ colsToDrawOf r := by omega
    have hWlt : colsToDrawOf r < W64 := by omega
    obtain ⟨i, hi, rfl⟩ := prepareSegments_mem (colsToDrawOf r) M hN hNW hWlt hmem
    have hq : 1 ≤ colsToDrawOf r / M := (Nat.one_le_div_iff (by omega)).mpr hNW
    have hstep := segStart_lt_succ (colsToDrawOf r) M i hq
    have hlast : segStart (colsToDrawOf r) M (i + 1) ≤ colsToDrawOf r := by
      have h1 : segStart (colsToDrawOf r) M (i + 1) ≤ segStart (colsToDrawOf r) M M :=
        segStart_mono _ _ (show i + 1 ≤ M by omega)
      rw [segStart_last (colsToDrawOf r) M hN] at h1
      exact h1
    refine ⟨show segStart (colsToDrawOf r) M i ≤ segStart (colsToDrawOf r) M (i + 1) - 1
      by omega, show segStart (colsToDrawOf r) M (i + 1) - 1 + r.y1 ≤ r.y2 by omega⟩
  · rw [List.mem_singleton] at hmem
    subst hmem
    rw [subW_eq hy12 (by omega)]
    exact ⟨by omega, by omega⟩

lemma drawTasks_cover {r : Rect} (hy12 : r.y1 ≤ r.y2) (hy2W : r.y2 + 1 < W64) (k hw : Nat) :
    ∀ j, (∃ seg ∈ drawTasks r k hw, seg.1 ≤ j ∧ j ≤ seg.2) ↔ j ≤ r.y2 - r.y1 := by
  intro j
  have hWeq : colsToDrawOf r = r.y2 - r.y1 + 1 := colsToDrawOf_eq hy12 hy2W
  unfold drawTasks
  split_ifs with hM
  · have hle := effectiveCount_le hM
    set M := effectiveCount r k hw with hMdef
    have hN : 1 ≤ M := by omega
    have hNW : M ≤ colsToDrawOf r := by omega
    have hWlt : colsToDrawOf r < W64 := by omega
    have hq : 1 ≤ colsToDrawOf r / M := (Nat.one_le_div_iff (by omega)).mpr hNW
    constructor
    · rintro ⟨seg, hmem, hj1, hj2⟩
      obtain ⟨i, hi, rfl⟩ := prepareSegments_mem (colsToDrawOf r) M hN hNW hWlt hmem
      have hlast : segStart (colsToDrawOf r) M (i + 1) ≤ colsToDrawOf r := by
        have h1 : segStart (colsToDrawOf r) M (i + 1) ≤ segStart (colsToDrawOf r) M M :=
          segStart_mono _ _ (show i + 1 ≤ M by omega)
        rw [segStart_last (colsToDrawOf r) M hN] at h1
        exact h1
      have hstep := segStart_lt_succ (colsToDrawOf r) M i hq
      have hj2b : j ≤ segStart (colsToDrawOf r) M (i + 1) - 1 := hj2
      omega
    · intro hj
      obtain ⟨i, hi, hle2, hlt⟩ := segStart_cover (colsToDrawOf r) M hN j (by omega)
      refine ⟨(segStart (colsToDrawOf r) M i, segStart (colsToDrawOf r) M (i + 1) - 1),
        ?_, hle2, by omega⟩
      rw [prepareSegments_eq (colsToDrawOf r) M hN hNW hWlt]
      exact List.mem_map.mpr ⟨i, List.mem_range.mpr hi, rfl⟩
  · refine ⟨?_, ?_⟩
    · rintro ⟨seg, hmem, hj1, hj2⟩
      rw [List.mem_singleton] at hmem
      subst hmem
      rw [subW_eq hy12 (by omega)] at hj2
      omega
    · intro hj
      exact ⟨(0, subW r.y2 r.y1), List.mem_singleton.mpr rfl, by omega,
        by rw [subW_eq hy12 (by omega)]; omega⟩

/-! ### The total effect of the fill phase -/

lemma drawFun_in {rows cols : Nat} {g : Nat → Option Nat} {r : Rect}
    (hg : decodeWord g 0 = rows)
    (hx12 : r.x1 ≤ r.x2) (hx2 : r.x2 < rows) (hy12 : r.y1 ≤ r.y2) (hy2 : r.y2 < cols)
    (hs : GetDataIndex + rows * cols < W64) (k hw : Nat) {j off : Nat}
    (hj : j ≤ r.y2 - r.y1) (hspan : colSpan rows r j off) :
    drawFun r k hw g off = some kColorWhite := by
  have hd : GetDataIndex = 16 := rfl
  have hclt : cols ≤ rows * cols := Nat.le_mul_of_pos_left cols (by omega)
  have hy2W : r.y2 + 1 < W64 := by omega
  unfold drawFun
  rw [foldl_DrawThread_apply hx12 hx2 hy2 hs (drawTasks r k hw) g hg
    (drawTasks_wf hy12 hy2W k hw) off, if_pos ?_]
  obtain ⟨seg, hmem, hj1, hj2⟩ := (drawTasks_cover hy12 hy2W k hw j).mpr hj
  exact ⟨seg, hmem, j, hj1, hj2, hspan⟩

lemma drawFun_out {rows cols : Nat} {g : Nat → Option Nat} {r : Rect}
    (hg : decodeWord g 0 = rows)
    (hx12 : r.x1 ≤ r.x2) (hx2 : r.x2 < rows) (hy12 : r.y1 ≤ r.y2) (hy2 : r.y2 < cols)
    (hs : GetDataIndex + rows * cols < W64) (k hw : Nat) {off : Nat}
    (hnot : ∀ j, j ≤ r.y2 - r.y1 → ¬colSpan rows r j off) :
    drawFun r k hw g off = g off := by
  have hd : GetDataIndex = 16 := rfl
  have hclt : cols ≤ rows * cols := Nat.le_mul_of_pos_left cols (by omega)
  have hy2W : r.y2 + 1 < W64 := by omega
  unfold drawFun
  rw [foldl_DrawThread_apply hx12 hx2 hy2 hs (drawTasks r k hw) g hg
    (drawTasks_wf hy12 hy2W k hw) off, if_neg ?_]
  rintro ⟨seg, hmem, j, hj1, hj2, hspan⟩
  exact hnot j ((drawTasks_cover hy12 hy2W k hw j).mp ⟨seg, hmem, hj1, hj2⟩) hspan

lemma ceil_div_eq (W N : Nat) (hN : 1 ≤ N) (hr : 0 < W % N) :
    (W + N - 1) / N = W / N + 1 := by
  have hdm := Nat.div_add_mod W N
  have hrlt : W % N < N := Nat.mod_lt W (by omega)
  have hmul : N * (W / N + 1) = N * (W / N) + N := by ring
  have hW : W + N - 1 = N * (W / N + 1) + (W % N - 1) := by omega
  rw [hW, Nat.mul_add_div (show 0 < N by omega),
    Nat.div_eq_of_lt (show W % N - 1 < N by omega)]

/-- C3: for every `W` and `N` with `1 ≤ N ≤ W`, `PrepareSegments(W, N)`
produces exactly `N` segments; the first `W mod N` segments have width
`⌈W/N⌉` and the rest width `⌊W/N⌋`; segment `0` starts at `0`; each
segment begins immediately after the previous one ends; every segment is
non-empty; and the segments partition `[0, W-1]` with no gaps (every
column lies in some segment) and no overlaps (segments are pairwise
disjoint, earlier segments lying strictly below later ones). -/
theorem claim_C3_planner (W N : Nat) (hN : 1 ≤ N) (hNW : N ≤ W) (hW : W < W64) :
    (PrepareSegments W N).length = N
    ∧ ((PrepareSegments W N).getD 0 (0, 0)).1 = 0
    ∧ (∀ i, i < N → i < W % N →
        ((PrepareSegments W N).getD i (0, 0)).2 + 1 - ((PrepareSegments W N).getD i (0, 0)).1
          = (W + N - 1) / N)
    ∧ (∀ i, i < N → W % N ≤ i →
        ((PrepareSegments W N).getD i (0, 0)).2 + 1 - ((PrepareSegments W N).getD i (0, 0)).1
          = W / N)
    ∧ (∀ i, i + 1 < N →
        ((PrepareSegments W N).getD (i + 1) (0, 0)).1
          = ((PrepareSegments W N).getD i (0, 0)).2 + 1)
    ∧ (∀ i, i < N →
        ((PrepareSegments W N).getD i (0, 0)).1 ≤ ((PrepareSegments W N).getD i (0, 0)).2)
    ∧ (∀ j, j < W ↔ ∃ i, i < N ∧ ((PrepareSegments W N).getD i (0, 0)).1 ≤ j
        ∧ j ≤ ((PrepareSegments W N).getD i (0, 0)).2)
    ∧ (∀ i ip, i < ip → ip < N →
        ((PrepareSegments W N).getD i (0, 0)).2 < ((PrepareSegments W N).getD ip (0, 0)).1) := by
  have hq : 1 ≤ W / N := (Nat.one_le_div_iff (by omega)).mpr hNW
  have hgd : ∀ i, i < N →
      (PrepareSegments W N).getD i (0, 0) = (segStart W N i, segStart W N (i + 1) - 1) :=
    fun i hi => prepareSegments_getD W N hN hNW hW hi
  have hstep : ∀ i, segStart W N i < segStart W N (i + 1) :=
    fun i => segStart_lt_succ W N i hq
  have hlast : ∀ i, i ≤ N → segStart W N i ≤ W := by
    intro i hi
    have h1 := segStart_mono W N hi
    rw [segStart_last W N hN] at h1
    exact h1
  refine ⟨PrepareSegments_length W N, ?_, ?_, ?_, ?_, ?_, ?_, ?_⟩
  · rw [hgd 0 (by omega), segStart_zero]
  · intro i hiN hir
    rw [hgd i hiN]
    have h1 := hstep i
    have h2 := segStart_succ W N i
    rw [if_pos hir] at h2
    have h3 := ceil_div_eq W N hN (by omega)
    show segStart W N (i + 1) - 1 + 1 - segStart W N i = (W + N - 1) / N
    omega
  · intro i hiN hir
    rw [hgd i hiN]
    have h1 := hstep i
    have h2 := segStart_succ W N i
    rw [if_neg (by omega)] at h2
    show segStart W N (i + 1) - 1 + 1 - segStart W N i = W / N
    omega
  · intro i hi
    rw [hgd (i + 1) (by omega), hgd i (by omega)]
    have h1 := hstep i
    show segStart W N (i + 1) = segStart W N (i + 1) - 1 + 1
    omega
  · intro i hi
    rw [hgd i hi]
    have h1 := hstep i
    show segStart W N i ≤ segStart W N (i + 1) - 1
    omega
  · intro j
    constructor
    · intro hj
      obtain ⟨i, hi, h1, h2⟩ := segStart_cover W N hN j hj
      refine ⟨i, hi, ?_⟩
      rw [hgd i hi]
      exact ⟨h1, by omega⟩
    · rintro ⟨i, hi, h1, h2⟩
      rw [hgd i hi] at h1 h2
      have h1b : segStart W N i ≤ j := h1
      have h2b : j ≤ segStart W N (i + 1) - 1 := h2
      have h3 := hstep i
      have h4 := hlast (i + 1) (by omega)
      omega
  · intro i ip hiip hip
    rw [hgd i (by omega), hgd ip hip]
    have h1 := hstep i
    have h2 := segStart_mono W N (show i + 1 ≤ ip by omega)
    show segStart W N (i + 1) - 1 < segStart W N ip
    omega

/-- Witness for C3 at `W = 13`, `N = 4`. -/
theorem claim_C3_planner_witness :
    (PrepareSegments 13 4).length = 4
    ∧ ((PrepareSegments 13 4).getD 0 (0, 0)).1 = 0
    ∧ ((PrepareSegments 13 4).getD 2 (0, 0)).1 = ((PrepareSegments 13 4).getD 1 (0, 0)).2 + 1
    ∧ ((PrepareSegments 13 4).getD 0 (0, 0)).2 + 1 - ((PrepareSegments 13 4).getD 0 (0, 0)).1
      = (13 + 4 - 1) / 4 := by
  have h := claim_C3_planner 13 4 (by norm_num) (by norm_num) (by norm_num [W64])
  exact ⟨h.1, h.2.1, h.2.2.2.2.1 1 (by norm_num), h.2.2.1 0 (by norm_num) (by norm_num)⟩

/-- C6 (amended): for every `rows ≥ 1`, `cols ≥ 1` such that the buffer
size `2 * sizeof(size_t) + rows * cols` does not overflow `size_t`, a
successful construction has a non-null buffer whose header decodes back
to `rows` and `cols` and whose `rows * cols` data cells all hold `0xFF`. -/
theorem claim_C6_create (rows cols : Nat) (h1 : 1 ≤ rows) (h2 : 1 ≤ cols)
    (hs : GetDataIndex + rows * cols < W64) :
    (Frame.CreateResult rows cols).1 = true
    ∧ (Frame.Create rows cols).buffer = some (CreateBuf rows cols)
    ∧ (Frame.Create rows cols).GetRows = rows
    ∧ (Frame.Create rows cols).GetCols = cols
    ∧ ∀ x y, x < rows → y < cols →
        readCell (CreateBuf rows cols) rows x y = some kColorBlack := by
  have hd : GetDataIndex = 16 := rfl
  have hrows : rows < W64 := by
    have := Nat.le_mul_of_pos_right rows (show 0 < cols by omega)
    omega
  have hcols : cols < W64 := by
    have := Nat.le_mul_of_pos_left cols (show 0 < rows by omega)
    omega
  have hsize : GetDataIndex ≤ bufferSize rows cols := by
    rw [bufferSize_eq hs]
    omega
  refine ⟨?_, ?_, GetRows_Create (by omega) (by omega) hrows hsize,
    GetCols_Create (by omega) (by omega) hcols hsize, ?_⟩
  · unfold Frame.CreateResult
    rw [if_neg (by omega)]
  · rw [Create_eq_some (by omega) (by omega)]
  · intro x y hx hy
    exact CreateBuf_cell hx hy hs

/-- Witness for the amended C6 at `rows = 10`, `cols = 15`. -/
theorem claim_C6_create_witness :
    (Frame.CreateResult 10 15).1 = true
    ∧ (Frame.Create 10 15).GetRows = 10
    ∧ (Frame.Create 10 15).GetCols = 15
    ∧ readCell (CreateBuf 10 15) 10 2 3 = some kColorBlack := by
  have h := claim_C6_create 10 15 (by norm_num) (by norm_num)
    (by norm_num [GetDataIndex, sizeofSizeT, W64])
  exact ⟨h.1, h.2.2.1, h.2.2.2.1, h.2.2.2.2 2 3 (by norm_num) (by norm_num)⟩

/-- Counterexample to C6 as stated: at `rows = cols = 2^32` construction
"succeeds" (`Create` returns `true` and the buffer is non-null), but the
size computation `cols * rows` wraps to `0`, the data region is empty,
and data cell `(0, 0)` does not hold `0xFF` — it lies outside the 16-byte
allocation. -/
theorem claim_C6_counterexample :
    (Frame.CreateResult (2 ^ 32) (2 ^ 32)).1 = true
    ∧ (Frame.Create (2 ^ 32) (2 ^ 32)).buffer = some (CreateBuf (2 ^ 32) (2 ^ 32))
    ∧ readCell (CreateBuf (2 ^ 32) (2 ^ 32)) (2 ^ 32) 0 0 ≠ some kColorBlack := by
  refine ⟨by decide, rfl, by decide⟩

/-- C10: `Create` performs no overflow check: the allocation size is
`GetDataIndex() + cols * rows` in wrapping `size_t` arithmetic, and as
long as the header fits, `Create` reports success and stores the original
`rows` and `cols` — even when the mathematical product `rows * cols`
exceeds the number of data bytes actually allocated. -/
theorem claim_C10_create_wrapping (rows cols : Nat) (h1 : 1 ≤ rows) (h2 : 1 ≤ cols)
    (hr : rows < W64) (hc : cols < W64) (hhdr : GetDataIndex ≤ bufferSize rows cols) :
    (Frame.CreateResult rows cols).1 = true
    ∧ bufferSize rows cols = (GetDataIndex + (cols * rows) % W64) % W64
    ∧ (Frame.Create rows cols).GetRows = rows
    ∧ (Frame.Create rows cols).GetCols = cols := by
  refine ⟨?_, ?_, GetRows_Create (by omega) (by omega) hr hhdr,
    GetCols_Create (by omega) (by omega) hc hhdr⟩
  · unfold Frame.CreateResult
    rw [if_neg (by omega)]
  · rfl

/-- Witness for C10 at `rows = cols = 2^32`: the product wraps to `0`
data bytes (strictly fewer than the mathematical `2^64`), yet creation
reports success and the header still round-trips. -/
theorem claim_C10_witness :
    (Frame.CreateResult (2 ^ 32) (2 ^ 32)).1 = true
    ∧ (Frame.Create (2 ^ 32) (2 ^ 32)).GetRows = 2 ^ 32
    ∧ (Frame.Create (2 ^ 32) (2 ^ 32)).GetCols = 2 ^ 32
    ∧ dataBytes (2 ^ 32) (2 ^ 32) < 2 ^ 32 * 2 ^ 32 := by
  have h := claim_C10_create_wrapping (2 ^ 32) (2 ^ 32) (by norm_num) (by norm_num)
    (by norm_num [W64]) (by norm_num [W64]) (by decide)
  exact ⟨h.1, h.2.2.1, h.2.2.2, by decide⟩

/-- C9: `Frame(0, cols)` and `Frame(rows, 0)` yield an observably null
frame, and on it `Draw` fails for every rectangle and worker count
without touching any state, `PrintFrame` fails, and `GetRows`/`GetCols`
return `0`. -/
theorem claim_C9_null_frame (rows cols : Nat) (h : rows = 0 ∨ cols = 0)
    (r : Rect) (k hw : Nat) :
    (Frame.Create rows cols).buffer = none
    ∧ (Frame.Create rows cols).Draw r k hw = (false, Frame.Create rows cols)
    ∧ (Frame.Create rows cols).PrintFrame = false
    ∧ (Frame.Create rows cols).GetRows = 0
    ∧ (Frame.Create rows cols).GetCols = 0 := by
  rw [Create_eq_none h]
  refine ⟨rfl, ?_, rfl, rfl, rfl⟩
  unfold Frame.Draw
  rw [if_neg ?_]
  unfold Frame.DrawSanityChecks
  simp

/-- Witness for C9 at `Frame(0, 5)`. -/
theorem claim_C9_witness :
    (Frame.Create 0 5).buffer = none
    ∧ (Frame.Create 0 5).Draw ⟨0, 0, 0, 0⟩ 1 8 = (false, Frame.Create 0 5)
    ∧ (Frame.Create 0 5).PrintFrame = false
    ∧ (Frame.Create 0 5).GetRows = 0
    ∧ (Frame.Create 0 5).GetCols = 0 :=
  claim_C9_null_frame 0 5 (Or.inl rfl) ⟨0, 0, 0, 0⟩ 1 8

/-- C8 as stated is violated by the code: with a reported hardware
concurrency of `0` and a valid single-cell rectangle, the upper clamp
bound `min(cols_to_draw, 0) = 0` lies BELOW the lower bound `1`
(violating `std::clamp`'s `lo ≤ hi` precondition — undefined behavior in
C++), and the canonical clamp yields an effective count of `0`, not `1`.
Operationally the dispatch still degenerates to the single-threaded
whole-span fill, which is the only part of the claim the code delivers. -/
theorem claim_C8_hw_zero_bug :
    min (colsToDrawOf ⟨0, 0, 0, 0⟩) 0 < 1
    ∧ effectiveCount ⟨0, 0, 0, 0⟩ 2 0 = 0
    ∧ effectiveCount ⟨0, 0, 0, 0⟩ 2 0 ≠ 1
    ∧ drawTasks ⟨0, 0, 0, 0⟩ 2 0 = [(0, 0)] := by
  refine ⟨by decide, by decide, by decide, by decide⟩

/-- C7: the worker count `Draw` dispatches (the length of the task list:
one segment per worker, the last run on the calling thread) equals
`clamp(requested, 1, min(cols_to_draw, hardware_concurrency))`; `k = 0`
is raised to `1`; `k` above the bound is reduced; and a single-column
rectangle always runs as one task on the calling thread. -/
theorem claim_C7_worker_count (r : Rect) (hy12 : r.y1 ≤ r.y2) (hy2W : r.y2 + 1 < W64)
    (k hw : Nat) (hhw : 1 ≤ hw) :
    (drawTasks r k hw).length = min (max k 1) (min (r.y2 - r.y1 + 1) hw)
    ∧ (k = 0 → (drawTasks r k hw).length = 1)
    ∧ (min (r.y2 - r.y1 + 1) hw < k →
        (drawTasks r k hw).length = min (r.y2 - r.y1 + 1) hw)
    ∧ (r.y1 = r.y2 → drawTasks r k hw = [(0, 0)]) := by
  have hW : colsToDrawOf r = r.y2 - r.y1 + 1 := colsToDrawOf_eq hy12 hy2W
  have hlohi : (1 : Nat) ≤ min (colsToDrawOf r) hw := by omega
  have hcl : effectiveCount r k hw = min (max k 1) (min (colsToDrawOf r) hw) := by
    unfold effectiveCount
    exact clampN_eq_of_le hlohi
  have hlen : (drawTasks r k hw).length = effectiveCount r k hw := by
    unfold drawTasks
    split_ifs with hM
    · rw [PrepareSegments_length]
    · simp only [List.length_singleton]
      omega
  refine ⟨?_, ?_, ?_, ?_⟩
  · rw [hlen, hcl, hW]
  · intro hk
    subst hk
    rw [hlen, hcl]
    omega
  · intro hlt
    rw [hlen, hcl]
    rw [hW] at *
    omega
  · intro heq
    have hM : ¬ 1 < effectiveCount r k hw := by
      rw [hcl]
      omega
    unfold drawTasks
    rw [if_neg hM, subW_eq hy12 (by omega)]
    have h0 : r.y2 - r.y1 = 0 := by omega
    rw [h0]

/-- Witness for C7: a 6-column rectangle with `k = 9`, `hw = 4` uses 4
workers, and a single-column rectangle always degenerates to one task. -/
theorem claim_C7_witness :
    (drawTasks ⟨0, 0, 0, 5⟩ 9 4).length = min (max 9 1) (min (5 - 0 + 1) 4)
    ∧ drawTasks ⟨0, 0, 3, 0⟩ 9 4 = [(0, 0)] := by
  have h1 := claim_C7_worker_count ⟨0, 0, 0, 5⟩ (by norm_num) (by norm_num [W64]) 9 4
    (by norm_num)
  have h2 := claim_C7_worker_count ⟨0, 0, 3, 0⟩ (by norm_num) (by norm_num [W64]) 9 4
    (by norm_num)
  exact ⟨h1.1, h2.2.2.2 rfl⟩

/-- C5: on a constructed frame, `Draw` returns `false` exactly when the
buffer is null or the rectangle is invalid (`x2 < x1`, `y2 < y1`,
`x2 ≥ rows` or `y2 ≥ cols`); a failing call leaves the frame completely
untouched; every other call returns `true`. -/
theorem claim_C5_draw_validation (rows cols : Nat) (hr : rows < W64) (hc : cols < W64)
    (hs : GetDataIndex + rows * cols < W64) (r : Rect) (k hw : Nat) :
    (((Frame.Create rows cols).Draw r k hw).1 = false ↔
      (Frame.Create rows cols).buffer = none ∨ r.x2 < r.x1 ∨ r.y2 < r.y1
        ∨ rows ≤ r.x2 ∨ cols ≤ r.y2)
    ∧ (((Frame.Create rows cols).Draw r k hw).1 = false →
        ((Frame.Create rows cols).Draw r k hw).2 = Frame.Create rows cols) := by
  by_cases hzero : rows = 0 ∨ cols = 0
  · rw [Create_eq_none hzero]
    have hchk : ¬ ((Frame.mk none).DrawSanityChecks r = true) := by
      unfold Frame.DrawSanityChecks
      simp
    unfold Frame.Draw
    rw [if_neg hchk]
    exact ⟨⟨fun _ => Or.inl rfl, fun _ => rfl⟩, fun _ => rfl⟩
  · have h1 : rows ≠ 0 := by omega
    have h2 : cols ≠ 0 := by omega
    have hsize : GetDataIndex ≤ bufferSize rows cols := by
      rw [bufferSize_eq hs]
      omega
    have hbuf := Create_eq_some h1 h2
    have hdrows : (Frame.Create rows cols).GetRows = rows := GetRows_Create h1 h2 hr hsize
    have hdcols : (Frame.Create rows cols).GetCols = cols := GetCols_Create h1 h2 hc hsize
    have hchk : ((Frame.Create rows cols).DrawSanityChecks r = true) ↔
        (r.x1 ≤ r.x2 ∧ r.y1 ≤ r.y2 ∧ r.x2 ≤ rows - 1 ∧ r.y2 ≤ cols - 1) := by
      unfold Frame.DrawSanityChecks
      rw [hdrows, hdcols, subW_eq (show 1 ≤ rows by omega) hr,
        subW_eq (show 1 ≤ cols by omega) hc, hbuf]
      simp
      tauto
    have hnn : ¬ (Frame.Create rows cols).buffer = none := by
      rw [hbuf]
      simp
    unfold Frame.Draw
    by_cases hv : (Frame.Create rows cols).DrawSanityChecks r = true
    · rw [if_pos hv]
      rw [hchk] at hv
      refine ⟨⟨fun hfalse => by simp at hfalse, fun hdisj => ?_⟩, fun hfalse => by simp at hfalse⟩
      exfalso
      rcases hdisj with hnone | hd | hd | hd | hd
      · exact hnn hnone
      · omega
      · omega
      · omega
      · omega
    · rw [if_neg hv]
      refine ⟨⟨fun _ => ?_, fun _ => rfl⟩, fun _ => rfl⟩
      rw [hchk] at hv
      have hdisj : r.x2 < r.x1 ∨ r.y2 < r.y1 ∨ rows ≤ r.x2 ∨ cols ≤ r.y2 := by
        by_contra hcon
        push_neg at hcon
        exact hv ⟨by omega, by omega, by omega, by omega⟩
      tauto

/-- Witness for C5: scenario S5, `Frame(10, 15)` with `Draw({0,0,10,14})`
(`x2 = rows`), which fails and leaves the frame unchanged. -/
theorem claim_C5_witness :
    ((Frame.Create 10 15).Draw ⟨0, 0, 10, 14⟩ 1 8).1 = false
    ∧ ((Frame.Create 10 15).Draw ⟨0, 0, 10, 14⟩ 1 8).2 = Frame.Create 10 15 := by
  have h := claim_C5_draw_validation 10 15 (by norm_num [W64]) (by norm_num [W64])
    (by norm_num [GetDataIndex, sizeofSizeT, W64]) ⟨0, 0, 10, 14⟩ 1 8
  have hf : ((Frame.Create 10 15).Draw ⟨0, 0, 10, 14⟩ 1 8).1 = false :=
    h.1.mpr (Or.inr (Or.inr (Or.inr (Or.inl (by norm_num)))))
  exact ⟨hf, h.2 hf⟩

/-- C1: on a frame whose header decodes to `(rows, cols)` (in particular
any successfully constructed frame, before or after earlier draws), a
valid rectangle and ANY requested worker count: `Draw` returns `true`,
every data cell inside the rectangle afterwards holds `0x00`, every data
cell outside the rectangle is unchanged, and the two header words are
unchanged. -/
theorem claim_C1_draw_fills (rows cols : Nat) (g : Nat → Option Nat)
    (hgr : decodeWord g 0 = rows) (hgc : decodeWord g sizeofSizeT = cols)
    (r : Rect) (hx12 : r.x1 ≤ r.x2) (hx2 : r.x2 < rows)
    (hy12 : r.y1 ≤ r.y2) (hy2 : r.y2 < cols)
    (hs : GetDataIndex + rows * cols < W64) (k hw : Nat) :
    ((Frame.mk (some g)).Draw r k hw).1 = true
    ∧ ((Frame.mk (some g)).Draw r k hw).2.buffer = some (drawFun r k hw g)
    ∧ (∀ x y, r.x1 ≤ x → x ≤ r.x2 → r.y1 ≤ y → y ≤ r.y2 →
        drawFun r k hw g (cellOff rows x y) = some kColorWhite)
    ∧ (∀ x y, x < rows → y < cols →
        ¬(r.x1 ≤ x ∧ x ≤ r.x2 ∧ r.y1 ≤ y ∧ y ≤ r.y2) →
        drawFun r k hw g (cellOff rows x y) = g (cellOff rows x y))
    ∧ (∀ off, off < GetDataIndex → drawFun r k hw g off = g off) := by
  have hd : GetDataIndex = 16 := rfl
  have hrows1 : 1 ≤ rows := by omega
  have hcols1 : 1 ≤ cols := by omega
  have hclt : cols ≤ rows * cols := Nat.le_mul_of_pos_left cols (by omega)
  have hrlt : rows ≤ rows * cols := Nat.le_mul_of_pos_right rows (by omega)
  have hchk : (Frame.mk (some g)).DrawSanityChecks r = true := by
    unfold Frame.DrawSanityChecks
    rw [GetRows_mk_some, GetCols_mk_some, hgr, hgc,
      subW_eq (show 1 ≤ rows by omega) (show rows < W64 by omega),
      subW_eq (show 1 ≤ cols by omega) (show cols < W64 by omega)]
    simp
    omega
  refine ⟨?_, ?_, ?_, ?_, ?_⟩
  · unfold Frame.Draw
    rw [if_pos hchk]
  · unfold Frame.Draw
    rw [if_pos hchk]
    rfl
  · intro x y hxa hxb hya hyb
    apply drawFun_in hgr hx12 hx2 hy12 hy2 hs k hw (show y - r.y1 ≤ r.y2 - r.y1 by omega)
    exact (colSpan_iff hx12).mpr
      ⟨x, hxa, hxb, by rw [show y - r.y1 + r.y1 = y from by omega]; rfl⟩
  · intro x y hx hy hout
    apply drawFun_out hgr hx12 hx2 hy12 hy2 hs k hw
    intro j hj hspan
    obtain ⟨ha, hb, hy_eq⟩ := colSpan_cell hx12 hx2 hx hspan
    exact hout ⟨ha, hb, by omega, by omega⟩
  · intro off hoff
    apply drawFun_out hgr hx12 hx2 hy12 hy2 hs k hw
    intro j hj hspan
    have := hspan.1
    omega

/-- Witness for C1 on `Frame(3, 4)`'s freshly created buffer with
rectangle `(1,1,2,3)` and two workers. -/
theorem claim_C1_witness :
    ((Frame.mk (some (CreateBuf 3 4))).Draw ⟨1, 1, 2, 3⟩ 2 8).1 = true
    ∧ drawFun ⟨1, 1, 2, 3⟩ 2 8 (CreateBuf 3 4) (cellOff 3 1 2) = some kColorWhite
    ∧ drawFun ⟨1, 1, 2, 3⟩ 2 8 (CreateBuf 3 4) (cellOff 3 0 0) = CreateBuf 3 4 (cellOff 3 0 0)
    ∧ drawFun ⟨1, 1, 2, 3⟩ 2 8 (CreateBuf 3 4) 5 = CreateBuf 3 4 5 := by
  have h := claim_C1_draw_fills 3 4 (CreateBuf 3 4) (by decide) (by decide) ⟨1, 1, 2, 3⟩
    (by norm_num) (by norm_num) (by norm_num) (by norm_num)
    (by norm_num [GetDataIndex, sizeofSizeT, W64]) 2 8
  exact ⟨h.1, h.2.2.1 1 2 (by norm_num) (by norm_num) (by norm_num) (by norm_num),
    h.2.2.2.1 0 0 (by norm_num) (by norm_num) (by decide),
    h.2.2.2.2 5 (by norm_num [GetDataIndex, sizeofSizeT])⟩

/-- C4: for a fixed well-formed frame and valid rectangle, the result of
`Draw` — flag and full final buffer — is bit-identical for every
requested worker count: the multi-segment path computes the same buffer
as the single-threaded whole-span fill. -/
theorem claim_C4_worker_invariance (rows cols : Nat) (g : Nat → Option Nat)
    (hgr : decodeWord g 0 = rows) (hgc : decodeWord g sizeofSizeT = cols)
    (r : Rect) (hx12 : r.x1 ≤ r.x2) (hx2 : r.x2 < rows)
    (hy12 : r.y1 ≤ r.y2) (hy2 : r.y2 < cols)
    (hs : GetDataIndex + rows * cols < W64) (k kp hw : Nat) :
    (Frame.mk (some g)).Draw r k hw = (Frame.mk (some g)).Draw r kp hw := by
  have key : drawFun r k hw g = drawFun r kp hw g := by
    funext off
    by_cases hc : ∃ j, j ≤ r.y2 - r.y1 ∧ colSpan rows r j off
    · obtain ⟨j, hj, hspan⟩ := hc
      rw [drawFun_in hgr hx12 hx2 hy12 hy2 hs k hw hj hspan,
        drawFun_in hgr hx12 hx2 hy12 hy2 hs kp hw hj hspan]
    · rw [drawFun_out hgr hx12 hx2 hy12 hy2 hs k hw (fun j hj hsp => hc ⟨j, hj, hsp⟩),
        drawFun_out hgr hx12 hx2 hy12 hy2 hs kp hw (fun j hj hsp => hc ⟨j, hj, hsp⟩)]
  have hdr : ∀ kq : Nat, (Frame.mk (some g)).Draw r kq hw =
      (if (Frame.mk (some g)).DrawSanityChecks r then (true, ⟨some (drawFun r kq hw g)⟩)
       else (false, ⟨some g⟩)) := fun kq => rfl
  rw [hdr k, hdr kp, key]

/-- Witness for C4: drawing with 3 workers equals drawing with 1 worker
on `Frame(3, 4)` with rectangle `(0,0,2,3)`. -/
theorem claim_C4_witness :
    (Frame.mk (some (CreateBuf 3 4))).Draw ⟨0, 0, 2, 3⟩ 3 8
      = (Frame.mk (some (CreateBuf 3 4))).Draw ⟨0, 0, 2, 3⟩ 1 8 :=
  claim_C4_worker_invariance 3 4 (CreateBuf 3 4) (by decide) (by decide) ⟨0, 0, 2, 3⟩
    (by norm_num) (by norm_num) (by norm_num) (by norm_num)
    (by norm_num [GetDataIndex, sizeofSizeT, W64]) 3 1 8

lemma sentinelBuf_rows (rows cols : Nat) (hr : rows < W64) :
    decodeWord (sentinelBuf rows cols) 0 = rows := by
  apply decode_of_encode _ _ _ hr
  intro i hi
  have h8 : sizeofSizeT = 8 := rfl
  unfold sentinelBuf
  rw [if_pos (by omega)]
  simp

lemma writtenSet_eq {rows cols : Nat} {r : Rect} {seg : Nat × Nat}
    (hx12 : r.x1 ≤ r.x2) (hx2 : r.x2 < rows) (hy2 : r.y2 < cols)
    (hs : GetDataIndex + rows * cols < W64)
    (hfl : seg.1 ≤ seg.2) (hsy : seg.2 + r.y1 ≤ r.y2) :
    writtenSet rows cols r seg =
      { off | ∃ j, seg.1 ≤ j ∧ j ≤ seg.2 ∧ colSpan rows r j off } := by
  have hd : GetDataIndex = 16 := rfl
  have h8 : sizeofSizeT = 8 := rfl
  have hrows1 : 1 ≤ rows := by omega
  have hclt : cols ≤ rows * cols := Nat.le_mul_of_pos_left cols (by omega)
  have hrlt : rows ≤ rows * cols := Nat.le_mul_of_pos_right rows (by omega)
  have hgr : decodeWord (sentinelBuf rows cols) 0 = rows :=
    sentinelBuf_rows rows cols (by omega)
  ext off
  simp only [writtenSet, Set.mem_setOf_eq]
  rw [DrawThread_apply hgr hfl hsy hx12 hx2 hy2 hs off]
  by_cases hc : ∃ j, seg.1 ≤ j ∧ j ≤ seg.2 ∧ colSpan rows r j off
  · rw [if_pos hc]
    constructor
    · intro _
      exact hc
    · intro _
      obtain ⟨j, hj1, hj2, hspan⟩ := hc
      have hoff : 16 ≤ off := by
        have := hspan.1
        omega
      unfold sentinelBuf
      rw [if_neg (by omega), if_neg (by omega)]
      simp [kColorWhite]
  · rw [if_neg hc]
    exact ⟨fun h => absurd rfl h, fun h => absurd h hc⟩

/-- C2: for a valid rectangle on a well-formed frame and every effective
worker count `M` with `1 ≤ M ≤ cols_to_draw`, the byte offsets
`DrawThread` writes for segment `i` of `PrepareSegments(cols_to_draw, M)`
are exactly `{ H + x + (y1 + j) * rows : x1 ≤ x ≤ x2, first_i ≤ j ≤ last_i }`
— no worker touches a byte outside its assigned column range — and the
write sets of distinct segments are pairwise disjoint. -/
theorem claim_C2_disjoint_writes (rows cols : Nat) (r : Rect)
    (hx12 : r.x1 ≤ r.x2) (hx2 : r.x2 < rows) (hy12 : r.y1 ≤ r.y2) (hy2 : r.y2 < cols)
    (hs : GetDataIndex + rows * cols < W64) (M : Nat) (hM1 : 1 ≤ M)
    (hM2 : M ≤ r.y2 - r.y1 + 1) :
    (∀ i, i < M →
      writtenSet rows cols r ((PrepareSegments (r.y2 - r.y1 + 1) M).getD i (0, 0)) =
        { off | ∃ x j, r.x1 ≤ x ∧ x ≤ r.x2
          ∧ ((PrepareSegments (r.y2 - r.y1 + 1) M).getD i (0, 0)).1 ≤ j
          ∧ j ≤ ((PrepareSegments (r.y2 - r.y1 + 1) M).getD i (0, 0)).2
          ∧ off = GetDataIndex + x + (r.y1 + j) * rows })
    ∧ (∀ i ip, i < M → ip < M → i ≠ ip →
      writtenSet rows cols r ((PrepareSegments (r.y2 - r.y1 + 1) M).getD i (0, 0)) ∩
        writtenSet rows cols r ((PrepareSegments (r.y2 - r.y1 + 1) M).getD ip (0, 0)) = ∅) := by
  have hd : GetDataIndex = 16 := rfl
  have hrows1 : 1 ≤ rows := by omega
  have hcols1 : 1 ≤ cols := by omega
  have hclt : cols ≤ rows * cols := Nat.le_mul_of_pos_left cols (by omega)
  have hW : r.y2 - r.y1 + 1 < W64 := by omega
  have hq : 1 ≤ (r.y2 - r.y1 + 1) / M := (Nat.one_le_div_iff (by omega)).mpr hM2
  have hgd : ∀ i, i < M → (PrepareSegments (r.y2 - r.y1 + 1) M).getD i (0, 0) =
      (segStart (r.y2 - r.y1 + 1) M i, segStart (r.y2 - r.y1 + 1) M (i + 1) - 1) :=
    fun i hi => prepareSegments_getD (r.y2 - r.y1 + 1) M hM1 hM2 hW hi
  have hstep : ∀ i, segStart (r.y2 - r.y1 + 1) M i < segStart (r.y2 - r.y1 + 1) M (i + 1) :=
    fun i => segStart_lt_succ (r.y2 - r.y1 + 1) M i hq
  have hlast : ∀ i, i ≤ M → segStart (r.y2 - r.y1 + 1) M i ≤ r.y2 - r.y1 + 1 := by
    intro i hi
    have h1 := segStart_mono (r.y2 - r.y1 + 1) M hi
    rw [segStart_last (r.y2 - r.y1 + 1) M hM1] at h1
    exact h1
  have hseg_wf : ∀ i, i < M →
      ((PrepareSegments (r.y2 - r.y1 + 1) M).getD i (0, 0)).1 ≤
        ((PrepareSegments (r.y2 - r.y1 + 1) M).getD i (0, 0)).2
      ∧ ((PrepareSegments (r.y2 - r.y1 + 1) M).getD i (0, 0)).2 + r.y1 ≤ r.y2 := by
    intro i hi
    rw [hgd i hi]
    have h1 := hstep i
    have h2 := hlast (i + 1) (by omega)
    refine ⟨show segStart (r.y2 - r.y1 + 1) M i ≤ segStart (r.y2 - r.y1 + 1) M (i + 1) - 1
      by omega, show segStart (r.y2 - r.y1 + 1) M (i + 1) - 1 + r.y1 ≤ r.y2 by omega⟩
  have hchar : ∀ i, i < M →
      writtenSet rows cols r ((PrepareSegments (r.y2 - r.y1 + 1) M).getD i (0, 0)) =
        { off | ∃ x j, r.x1 ≤ x ∧ x ≤ r.x2
          ∧ ((PrepareSegments (r.y2 - r.y1 + 1) M).getD i (0, 0)).1 ≤ j
          ∧ j ≤ ((PrepareSegments (r.y2 - r.y1 + 1) M).getD i (0, 0)).2
          ∧ off = GetDataIndex + x + (r.y1 + j) * rows } := by
    intro i hi
    rw [writtenSet_eq hx12 hx2 hy2 hs (hseg_wf i hi).1 (hseg_wf i hi).2]
    ext off
    simp only [Set.mem_setOf_eq]
    constructor
    · rintro ⟨j, hj1, hj2, hspan⟩
      obtain ⟨x, hxa, hxb, hoff⟩ := (colSpan_iff hx12).mp hspan
      refine ⟨x, j, hxa, hxb, hj1, hj2, ?_⟩
      rw [hoff, Nat.add_comm j r.y1]
    · rintro ⟨x, j, hxa, hxb, hj1, hj2, hoff⟩
      refine ⟨j, hj1, hj2, (colSpan_iff hx12).mpr ⟨x, hxa, hxb, ?_⟩⟩
      rw [hoff, Nat.add_comm r.y1 j]
  refine ⟨hchar, ?_⟩
  have hdisj : ∀ i ip, i < ip → ip < M → ∀ off,
      off ∈ writtenSet rows cols r ((PrepareSegments (r.y2 - r.y1 + 1) M).getD i (0, 0)) →
      off ∈ writtenSet rows cols r ((PrepareSegments (r.y2 - r.y1 + 1) M).getD ip (0, 0)) →
      False := by
    intro i ip hiip hip off hin1 hin2
    rw [hchar i (by omega)] at hin1
    rw [hchar ip hip] at hin2
    obtain ⟨x, j, hxa, hxb, hj1, hj2, hoff⟩ := hin1
    obtain ⟨xb, jb, hxab, hxbb, hjb1, hjb2, hoffb⟩ := hin2
    rw [hgd i (by omega)] at hj1 hj2
    rw [hgd ip hip] at hjb1 hjb2
    have hj1c : segStart (r.y2 - r.y1 + 1) M i ≤ j := hj1
    have hj2c : j ≤ segStart (r.y2 - r.y1 + 1) M (i + 1) - 1 := hj2
    have hjb1c : segStart (r.y2 - r.y1 + 1) M ip ≤ jb := hjb1
    have hjb2c : jb ≤ segStart (r.y2 - r.y1 + 1) M (ip + 1) - 1 := hjb2
    have heq : x + (r.y1 + j) * rows = xb + (r.y1 + jb) * rows := by
      rw [hoff] at hoffb
      omega
    have hinj := cell_addr_inj (show x < rows by omega) (show xb < rows by omega) heq
    have hmono := segStart_mono (r.y2 - r.y1 + 1) M (show i + 1 ≤ ip by omega)
    have hstepi := hstep i
    omega
  intro i ip hi hip hne
  rw [Set.eq_empty_iff_forall_not_mem]
  rintro off ⟨hin1, hin2⟩
  rcases Nat.lt_or_ge i ip with hlt | hge
  · exact hdisj i ip hlt hip off hin1 hin2
  · exact hdisj ip i (by omega) hi off hin2 hin1

/-- Witness for C2 on `Frame(3, 4)` with rectangle `(0,0,2,3)` and two
workers: the two planned segments' write sets are disjoint, and the first
segment writes exactly its own column range. -/
theorem claim_C2_witness :
    (writtenSet 3 4 ⟨0, 0, 2, 3⟩ ((PrepareSegments 4 2).getD 0 (0, 0)) ∩
      writtenSet 3 4 ⟨0, 0, 2, 3⟩ ((PrepareSegments 4 2).getD 1 (0, 0)) = ∅)
    ∧ writtenSet 3 4 ⟨0, 0, 2, 3⟩ ((PrepareSegments 4 2).getD 0 (0, 0)) =
        { off | ∃ x j, 0 ≤ x ∧ x ≤ 2
          ∧ ((PrepareSegments 4 2).getD 0 (0, 0)).1 ≤ j
          ∧ j ≤ ((PrepareSegments 4 2).getD 0 (0, 0)).2
          ∧ off = GetDataIndex + x + (0 + j) * 3 } := by
  have h := claim_C2_disjoint_writes 3 4 ⟨0, 0, 2, 3⟩ (by norm_num) (by norm_num)
    (by norm_num) (by norm_num) (by norm_num [GetDataIndex, sizeofSizeT, W64]) 2
    (by norm_num) (by norm_num)
  exact ⟨h.2 0 1 (by norm_num) (by norm_num) (by norm_num), h.1 0 (by norm_num)⟩

end NoSyncFrameWrite
